import Mathlib

/-!
# Verification of the `kuhar/llvm-dominators` support code

This file gives a shallow embedding, in Lean 4, of the parts of the
repository that the checked claims are about:

* `NewDomTree::runDFS` from `src/include/llvm/IR/NewDominators.h`
  (the iterative depth-first walk producing preorder numbers, parents
  and predecessor lists);
* `llvm::connect`, `llvm::disconnect`, `InputGraph::toCFG` and
  `InputGraph::readFromFile` from `src/lib/IR/DomSupport.cpp`;
* the `NewDomTree::Verification` bitmask constants.

Nodes (`BasicBlock *` in the source) are modelled as natural numbers.
`DenseMap` entries are modelled as a total function together with an
explicit list of created keys (LLVM's `DenseMap::operator[]`
value-initializes a fresh entry on first access, which is what the
`keys` list records).  Fields that the C++ leaves value-initialized
(`Num`, `Parent`) are modelled as `Option`, with `none` standing for
"never assigned by the algorithm" (`Parent = none` also models the
explicit `nullptr` assignment for the start node).

The DFS loop is embedded as a step function on an explicit state plus a
fuel-indexed iterator; every property proved below is an invariant that
holds after any number of loop iterations, hence in particular of the
final result.  The state carries a ghost `log` of traversal events
(visits, successor-edge scans, stack pushes) that does not influence the
computed maps; it is only used to phrase the claims about the dynamics
of the walk (which edge was scanned, who scheduled whom, in what order).
-/

namespace LLVMDom

abbrev Node := Nat

/-- Per-node record of `NewDomTree::DFSResult::NodeToInfo`
(`struct DFSNodeInfo { SmallVector<Node, 8> Predecessors; Index Num; Node Parent; }`).
`Num = none` / `Parent = none` model a value never assigned by `runDFS`
(`Parent = none` also models an explicit `nullptr`). -/
structure DFSNodeInfo where
  Predecessors : List Node := []
  Num : Option Nat := none
  Parent : Option Node := none
deriving DecidableEq

/-- Ghost trace events of the DFS walk: a node getting visited (popped
unvisited and numbered), a successor edge `u → v` being enumerated, and a
successor being pushed onto the work list (`push v u` means `v` was
scheduled from `u`). -/
inductive DFSEvent where
  | visit : Node → DFSEvent
  | scan : Node → Node → DFSEvent
  | push : Node → Node → DFSEvent
deriving DecidableEq

/-- The loop state of `NewDomTree::runDFS`: `Visited`, `WorkList` (head =
stack top), the `DFSResult` fields (`numToNode`, `nextDFSNum`, and
`NodeToInfo` as the pair `keys`/`info`), plus the ghost event `log`. -/
structure DFSState where
  visited : List Node
  workList : List Node
  numToNode : List Node
  nextDFSNum : Nat
  keys : List Node
  info : Node → DFSNodeInfo
  log : List DFSEvent

/-- Point-update of the `NodeToInfo` map. -/
def updateInfo (s : DFSState) (v : Node) (f : DFSNodeInfo → DFSNodeInfo) : DFSState :=
  { s with info := fun x => if x = v then f (s.info v) else s.info x }

/-- `DenseMap::operator[]` creates a (value-initialized) entry on first
access; `touchKey` records that key creation. -/
def touchKey (s : DFSState) (v : Node) : DFSState :=
  if v ∈ s.keys then s else { s with keys := s.keys ++ [v] }

/-- One iteration of the inner successor loop of `runDFS`:

    auto &SuccInfo = Res.NodeToInfo[Succ];
    if (Succ != BB) SuccInfo.Predecessors.push_back(BB);
    if (Visited.count(Succ) == 0)
      if (Condition(BB, Succ)) { WorkList.push_back(Succ); SuccInfo.Parent = BB; }
-/
def scanSucc (cond : Node → Node → Bool) (BB : Node) (s : DFSState) (Succ : Node) : DFSState :=
  let s1 := { touchKey s Succ with log := s.log ++ [DFSEvent.scan BB Succ] }
  let s2 := if Succ ≠ BB then
      updateInfo s1 Succ (fun i => { i with Predecessors := i.Predecessors ++ [BB] })
    else s1
  if Succ ∉ s.visited ∧ cond BB Succ = true then
    let s3 := updateInfo s2 Succ (fun i => { i with Parent := some BB })
    { s3 with workList := Succ :: s3.workList, log := s3.log ++ [DFSEvent.push Succ BB] }
  else s2

/-- The visit part of one outer iteration of `runDFS` (run when the popped
node is unvisited):

    auto &BBInfo = Res.NodeToInfo[BB];
    BBInfo.Num = Res.nextDFSNum;
    Res.numToNode.push_back(BB);
    ++Res.nextDFSNum;
    Visited.insert(BB);
-/
def visitNode (s : DFSState) (BB : Node) : DFSState :=
  let s1 := touchKey s BB
  let s2 := updateInfo s1 BB (fun i => { i with Num := some s.nextDFSNum })
  { s2 with numToNode := s2.numToNode ++ [BB],
            nextDFSNum := s2.nextDFSNum + 1,
            visited := BB :: s2.visited,
            log := s2.log ++ [DFSEvent.visit BB] }

/-- One iteration of the `while (!WorkList.empty())` loop of `runDFS`.
`g` is the successor function of the CFG (`successors(BB)`); successors
are scanned in reversed order, exactly as in
`for (auto *Succ : reverse(successors(BB)))`. -/
def dfsStep (g : Node → List Node) (cond : Node → Node → Bool) (s : DFSState) : DFSState :=
  match s.workList with
  | [] => s
  | BB :: rest =>
    if BB ∈ s.visited then { s with workList := rest }
    else ((g BB).reverse).foldl (scanSucc cond BB) (visitNode { s with workList := rest } BB)

/-- The state right before the loop:

    Res.NodeToInfo[Start].Parent = nullptr;
    WorkList.push_back(Start);
-/
def initState (start : Node) : DFSState :=
  { visited := [], workList := [start], numToNode := [], nextDFSNum := 0,
    keys := [start], info := fun _ => {}, log := [] }

/-- Fuel-indexed iteration of the DFS loop (the step is the identity once
the work list is empty, so any sufficiently large fuel yields the final
state of `runDFS`). -/
def dfsRun (g : Node → List Node) (cond : Node → Node → Bool) : Nat → DFSState → DFSState
  | 0, s => s
  | n + 1, s => dfsRun g cond n (dfsStep g cond s)

/-- `NewDomTree::runDFS(Start, Condition)` on the CFG `g`, after `fuel`
loop iterations. -/
def runDFS (g : Node → List Node) (cond : Node → Node → Bool) (start : Node) (fuel : Nat) :
    DFSState :=
  dfsRun g cond fuel (initState start)

/-- The parent recorded by a push event targeting `v`. -/
def pushParent? (v : Node) : DFSEvent → Option Node
  | DFSEvent.push w u => if w = v then some u else none
  | _ => none

/-- The source recorded by a scan event targeting `v`, excluding
self-edges (which `runDFS` does not record as predecessors). -/
def scanSrc? (v : Node) : DFSEvent → Option Node
  | DFSEvent.scan u w => if w = v ∧ u ≠ v then some u else none
  | _ => none

/-- The node of a visit event. -/
def visitEv? : DFSEvent → Option Node
  | DFSEvent.visit n => some n
  | _ => none

/-- Index of the first occurrence of `v` in a list (`none` if absent). -/
def firstIdx : List Node → Node → Option Nat
  | [], _ => none
  | x :: xs, v => if x = v then some 0 else (firstIdx xs v).map (· + 1)

/-- Checks, replaying the event log front to back with the set `vis` of
nodes visited so far, that every push event `push v u` happened with the
descend condition true and `v` not yet visited at that moment. -/
def guardedFrom (cond : Node → Node → Bool) (vis : List Node) : List DFSEvent → Bool
  | [] => true
  | DFSEvent.visit n :: rest => guardedFrom cond (n :: vis) rest
  | DFSEvent.scan _ _ :: rest => guardedFrom cond vis rest
  | DFSEvent.push v u :: rest =>
      if v ∈ vis then false else cond u v && guardedFrom cond vis rest

/-- The visited set (as a list, most recent first) after replaying an
event log starting from `vis`. -/
def visAfter (vis : List Node) : List DFSEvent → List Node
  | [] => vis
  | DFSEvent.visit n :: rest => visAfter (n :: vis) rest
  | _ :: rest => visAfter vis rest

/-! ## Switch terminators, `llvm::connect` and `llvm::disconnect`

In the harness every block terminator is a `SwitchInst` on a constant
condition: a default destination plus a list of (case value, successor)
pairs.  The successor list of a switch is the default destination
followed by the case successors, in order (LLVM's successor numbering).
A block with no terminator is modelled as `none`. -/

/-- A `SwitchInst` terminator: default destination and cases. -/
structure SwitchTerm where
  defaultDest : Node
  cases : List (Nat × Node)
deriving DecidableEq

/-- Successors of a switch terminator: default destination first, then
the case successors in order. -/
def switchSuccs (sw : SwitchTerm) : List Node :=
  sw.defaultDest :: sw.cases.map (fun c => c.2)

/-- Successors of an optional terminator (`[]` when the block has none). -/
def termSuccs : Option SwitchTerm → List Node
  | none => []
  | some sw => switchSuccs sw

/-- `llvm::connect(From, To)` applied to `From`'s terminator: if the block
has no terminator, create `switch i32 0, default To` (zero cases);
otherwise add a case with value `getNumCases()` and successor `To`. -/
def connectTerm (t : Option SwitchTerm) (To : Node) : SwitchTerm :=
  match t with
  | none => { defaultDest := To, cases := [] }
  | some sw => { sw with cases := sw.cases ++ [(sw.cases.length, To)] }

/-- The case-removal loop of `llvm::disconnect`: remove the first case
whose successor is `To` (no-op when none matches).  LLVM's
`SwitchInst::removeCase` moves the last case into the removed slot
rather than shifting, so the surviving cases' order differs from this
model; the case multiset — all that the arc claims are about — is the
same, which is why the `disconnect` theorem below is stated on
successor multisets. -/
def removeFirstCaseTo : List (Nat × Node) → Node → List (Nat × Node)
  | [], _ => []
  | c :: rest, To => if c.2 = To then rest else c :: removeFirstCaseTo rest To

/-- `llvm::disconnect(From, To)` applied to `From`'s switch terminator:
if the switch has zero cases, erase it (`none`); if the default
destination is `To`, collapse the default to the first case's successor
and remove that case; otherwise remove the first case whose successor is
`To`. -/
def disconnectTerm (sw : SwitchTerm) (To : Node) : Option SwitchTerm :=
  if sw.cases.length = 0 then none
  else if sw.defaultDest = To then
    match sw.cases with
    | [] => none
    | c :: rest => some { defaultDest := c.2, cases := rest }
  else some { sw with cases := removeFirstCaseTo sw.cases To }

/-! ## The harness driver: `InputGraph` -/

/-- An update opcode of the harness language (`i` / `d` lines). -/
inductive Op where
  | Insert : Op
  | Delete : Op
deriving DecidableEq

/-- Modelled from the spec: the `InputGraph` declaration lives in
`include/llvm/IR/DomSupport.h`, which is not part of the sources at
hand; only `DomSupport.cpp` is.  Per the spec's harness-language section
a graph holds the node count `N`, the entry node, the initial arcs, and
the deferred updates, and `readFromFile`'s `Double init?` assertion
shows `nodesNum` is zero-initialized; a default-constructed graph has
zero nodes, no arcs and no deferred updates. -/
structure InputGraph where
  nodesNum : Nat := 0
  entry : Nat := 0
  arcs : List (Nat × Nat) := []
  updates : List (Op × Nat × Nat) := []
deriving DecidableEq

/-- The fatal-abort channels of `InputGraph::readFromFile`:
`llvm_unreachable("Unknown action")`, `llvm_unreachable("Parse error")`,
`assert(Graph.nodesNum == 0 && "Double init?")`, and the
`assert(x <= Graph.nodesNum)` / `assert(y <= Graph.nodesNum)` bound
checks on update lines.  An `Except.error` of this type models the
process aborting (asserts are taken as enabled, as in a debug build of
this research harness). -/
inductive FatalAbort where
  | unknownAction : FatalAbort
  | parseError : FatalAbort
  | doubleInit : FatalAbort
  | updateOutOfRange : FatalAbort
deriving DecidableEq

/-- Whitespace tokenisation of a harness line (models `istringstream`
extraction; token splitting is on the space character). -/
def tokensAux : List Char → List Char → List (List Char)
  | [], cur => if cur = [] then [] else [cur.reverse]
  | c :: rest, cur =>
    if c = ' ' then
      if cur = [] then tokensAux rest [] else cur.reverse :: tokensAux rest []
    else tokensAux rest (c :: cur)

/-- The whitespace-separated tokens of a line. -/
def lineTokens (line : String) : List (List Char) :=
  tokensAux line.data []

/-- The value of a decimal digit character. -/
def digit? (c : Char) : Option Nat :=
  if '0' ≤ c ∧ c ≤ '9' then some (c.toNat - 48) else none

/-- Parse a nonempty all-digit token as an unsigned number (`istream`
numeral lexing, simplified to plain digit strings). -/
def natFromChars (cs : List Char) : Option Nat :=
  if cs = [] then none
  else cs.foldl
    (fun acc c =>
      match acc, digit? c with
      | some a, some d => some (a * 10 + d)
      | _, _ => none)
    (some 0)

/-- Parse two unsigned operands from the tokens following the action
character (extra tokens are ignored, as unread stream input is). -/
def nat2? : List (List Char) → Option (Nat × Nat)
  | x :: y :: _ =>
    match natFromChars x, natFromChars y with
    | some a, some b => some (a, b)
    | _, _ => none
  | _ => none

/-- Parse four unsigned operands (the `p` header line). -/
def nat4? : List (List Char) → Option (Nat × Nat × Nat × Nat)
  | x :: y :: z :: w :: _ =>
    match natFromChars x, natFromChars y, natFromChars z, natFromChars w with
    | some a, some b, some c, some d => some (a, b, c, d)
    | _, _, _, _ => none
  | _ => none

/-- One iteration of the line loop of `InputGraph::readFromFile`: switch
on the first character of the line (the `char Action`), then parse the
operands with `ISS >> ...`.  Unread trailing characters of the first
token stay in front of the operand tokens, as an input stream would
leave them.  A whitespace-only line leaves `Action` indeterminate; it is
modelled as falling into the `default:` abort. -/
def processLine (g : InputGraph) (line : String) : Except FatalAbort InputGraph :=
  match lineTokens line with
  | [] => Except.error FatalAbort.unknownAction
  | [] :: _ => Except.error FatalAbort.unknownAction
  | (a :: ws) :: rest =>
    let args := if ws = [] then rest else ws :: rest
    if a = 'p' then
      if g.nodesNum ≠ 0 then Except.error FatalAbort.doubleInit
      else match nat4? args with
        | some (n, _, e, _) => Except.ok { g with nodesNum := n, entry := e }
        | none => Except.error FatalAbort.parseError
    else if a = 'a' then
      match nat2? args with
      | some (x, y) => Except.ok { g with arcs := g.arcs ++ [(x, y)] }
      | none => Except.error FatalAbort.parseError
    else if a = 'e' then Except.ok g
    else if a = 'i' then
      match nat2? args with
      | some (x, y) =>
        if x ≤ g.nodesNum ∧ y ≤ g.nodesNum then
          Except.ok { g with updates := g.updates ++ [(Op.Insert, x, y)] }
        else Except.error FatalAbort.updateOutOfRange
      | none => Except.error FatalAbort.parseError
    else if a = 'd' then
      match nat2? args with
      | some (x, y) =>
        if x ≤ g.nodesNum ∧ y ≤ g.nodesNum then
          Except.ok { g with updates := g.updates ++ [(Op.Delete, x, y)] }
        else Except.error FatalAbort.updateOutOfRange
      | none => Except.error FatalAbort.parseError
    else Except.error FatalAbort.unknownAction

/-- The `for (std::string Line; std::getline(IFS, Line) && !Line.empty();)`
loop: process lines until the list is exhausted or an empty line is hit,
then `return std::move(Graph)` (a `some`). -/
def readLines (g : InputGraph) : List String → Except FatalAbort (Option InputGraph)
  | [] => Except.ok (some g)
  | l :: rest =>
    if l.data = [] then Except.ok (some g)
    else match processLine g l with
      | Except.error e => Except.error e
      | Except.ok g2 => readLines g2 rest

/-- `InputGraph::readFromFile`, on the list of lines `getline` yields (a
file that cannot be opened yields no lines at all).  The result type
mirrors the C++ `Optional<InputGraph>` return type inside the
abort-or-return model. -/
def readFromFile (lines : List String) : Except FatalAbort (Option InputGraph) :=
  readLines {} lines

/-- `true` exactly on the one result shape (`return None`) that
`readFromFile` would need for an empty optional. -/
def returnsNone : Except FatalAbort (Option InputGraph) → Bool
  | Except.ok none => true
  | _ => false

/-! ## `InputGraph::toCFG` -/

/-- The CFG materialized by `InputGraph::toCFG`: the `numToBB` map (here
carrying the block names) and the per-node terminator built by the
`connect` calls. -/
structure GraphCFG where
  numToBB : List (Nat × String)
  term : Nat → Option SwitchTerm

/-- `MakeName(prefix, num)` of `InputGraph::toCFG`. -/
def mkBlockName (pfx : String) (num : Nat) : String :=
  pfx ++ toString num

/-- `InputGraph::toCFG`: create the entry block `entry_n_<E>` first, then
blocks `n_<K>` for every other `K` in `1..N` in increasing order, then
realize every initial arc in listed order via `llvm::connect` on the
source block's terminator. -/
def InputGraph.toCFG (g : InputGraph) : GraphCFG :=
  let entryPair := (g.entry, mkBlockName "entry_n_" g.entry)
  let others := (((List.range g.nodesNum).map (fun i => i + 1)).filter
      (fun i => i ≠ g.entry)).map (fun i => (i, mkBlockName "n_" i))
  { numToBB := entryPair :: others,
    term := g.arcs.foldl
      (fun m a => fun k => if k = a.1 then some (connectTerm (m k) a.2) else m k)
      (fun _ => none) }

/-- Successors of node `k` in a materialized CFG. -/
def GraphCFG.succs (C : GraphCFG) (k : Nat) : List Node :=
  termSuccs (C.term k)

/-! ## `NewDomTree::Verification` -/

/-- `NewDomTree::Verification::Basic`. -/
def VerifBasic : Nat := 1

/-- `NewDomTree::Verification::CFG`. -/
def VerifCFG : Nat := 2

/-- `NewDomTree::Verification::Sibling`. -/
def VerifSibling : Nat := 4

/-- `NewDomTree::Verification::OldDT` (the oracle cross-check bit). -/
def VerifOldDT : Nat := 8

/-- `NewDomTree::Verification::Normal = Basic | CFG | OldDT`. -/
def VerifNormal : Nat := VerifBasic ||| VerifCFG ||| VerifOldDT

/-- `NewDomTree::Verification::Full = Basic | CFG | Sibling | OldDT`. -/
def VerifFull : Nat := VerifBasic ||| VerifCFG ||| VerifSibling ||| VerifOldDT

/-! ## Concrete example graphs used in counterexamples and witnesses -/

/-- A one-node CFG with a self-loop at node 0. -/
def gSelf : Node → List Node := fun v => if v = 0 then [0] else []

/-- A three-node CFG `0 → 1`, `0 → 2`, `1 → 2` (node 2 gets scheduled
twice, first from 0 and then from 1, before it is visited). -/
def gSched : Node → List Node :=
  fun v => if v = 0 then [1, 2] else if v = 1 then [2] else []

/-- A two-node CFG `0 → 1`. -/
def gLine : Node → List Node := fun v => if v = 0 then [1] else []

/-- The always-true descend condition. -/
def condT : Node → Node → Bool := fun _ _ => true

/-- The always-false descend condition. -/
def condF : Node → Node → Bool := fun _ _ => false

/-- A sample harness graph: 3 nodes, entry 2, arcs `2→1, 2→3, 1→3, 2→1`
(with a repeated arc, exercising case insertion order). -/
def gEx : InputGraph :=
  { nodesNum := 3, entry := 2, arcs := [(2, 1), (2, 3), (1, 3), (2, 1)] }

/-! ## The loop invariant of `runDFS` -/

/-- Invariant of the `runDFS` loop state, relating the computed maps to
the ghost event log:

* `visitedIff`/`nodup`: the visited set is exactly the content of
  `numToNode`, which has no duplicates;
* `numEq`/`nextEq`: `NodeToInfo[v].Num` is the position of `v` in
  `numToNode` (unassigned otherwise), and `nextDFSNum` is its length;
* `parentEq`: `NodeToInfo[v].Parent` is the most recent scheduler of `v`
  (the last push event targeting `v`), `none` if `v` was never pushed;
* `predsEq`: `NodeToInfo[v].Predecessors` lists the sources of all scan
  events targeting `v`, self-edges excluded, in scan order;
* `visitsEq`: the visit events of the log are `numToNode` in order;
* `guarded`/`visSync`: every push happened with the descend condition
  true and its target unvisited at that moment, and replaying the log
  yields the current visited set;
* `scanKey`/`visitKey`: every scanned successor and every visited node
  has a created `NodeToInfo` entry;
* `headVisit`: either nothing has happened yet (the initial state) or
  the first event is the visit of the start node. -/
structure DFSInv (cond : Node → Node → Bool) (start : Node) (s : DFSState) : Prop where
  visitedIff : ∀ v, v ∈ s.visited ↔ v ∈ s.numToNode
  nodup : s.numToNode.Nodup
  numEq : ∀ v, (s.info v).Num = firstIdx s.numToNode v
  nextEq : s.nextDFSNum = s.numToNode.length
  parentEq : ∀ v, (s.info v).Parent = (s.log.filterMap (pushParent? v)).getLast?
  predsEq : ∀ v, (s.info v).Predecessors = s.log.filterMap (scanSrc? v)
  visitsEq : s.log.filterMap visitEv? = s.numToNode
  guarded : guardedFrom cond [] s.log = true
  visSync : visAfter [] s.log = s.visited
  scanKey : ∀ u v, DFSEvent.scan u v ∈ s.log → v ∈ s.keys
  visitKey : ∀ v, v ∈ s.numToNode → v ∈ s.keys
  headVisit : (s.log = [] ∧ s.workList = [start] ∧ s.numToNode = []) ∨
      s.log.head? = some (DFSEvent.visit start)

/-! ## Helper lemmas on lists and the log combinators -/

theorem filterMap_concat {α β : Type} (f : α → Option β) (l : List α) (e : α) :
    (l ++ [e]).filterMap f = l.filterMap f ++ (f e).toList := by
  cases h : f e <;> simp [List.filterMap_append, h]

theorem head?_append_left {α : Type} (l l2 : List α) (h : l ≠ []) :
    (l ++ l2).head? = l.head? := by
  cases l with
  | nil => exact absurd rfl h
  | cons x xs => rfl

theorem firstIdx_cons (x : Node) (xs : List Node) (v : Node) :
    firstIdx (x :: xs) v =
      if x = v then some 0 else (firstIdx xs v).map (· + 1) := rfl

theorem firstIdx_append_ne (xs : List Node) (v b : Node) (h : v ≠ b) :
    firstIdx (xs ++ [b]) v = firstIdx xs v := by
  induction xs with
  | nil =>
      show (if b = v then some 0 else Option.map _ (firstIdx [] v)) = none
      rw [if_neg (fun hb => h hb.symm)]
      rfl
  | cons x xs ih =>
      rw [List.cons_append, firstIdx_cons, firstIdx_cons, ih]

theorem firstIdx_append_self (xs : List Node) (v : Node) (h : v ∉ xs) :
    firstIdx (xs ++ [v]) v = some xs.length := by
  induction xs with
  | nil => simp [firstIdx]
  | cons x xs ih =>
      have hx : x ≠ v := fun hh => h (hh ▸ List.mem_cons_self x xs)
      have hxs : v ∉ xs := fun hh => h (List.mem_cons_of_mem x hh)
      rw [List.cons_append, firstIdx_cons, if_neg hx, ih hxs]
      rfl

theorem firstIdx_isSome_iff (xs : List Node) (v : Node) :
    (firstIdx xs v).isSome = true ↔ v ∈ xs := by
  induction xs with
  | nil => simp [firstIdx]
  | cons x xs ih =>
      by_cases hx : x = v
      · subst hx
        simp [firstIdx_cons]
      · rw [firstIdx_cons, if_neg hx]
        constructor
        · intro hs
          cases hf : firstIdx xs v with
          | none => rw [hf] at hs; simp at hs
          | some i => exact List.mem_cons_of_mem x (ih.mp (by simp [hf]))
        · intro hm
          rcases List.mem_cons.mp hm with h1 | h2
          · exact absurd h1.symm hx
          · cases hf : firstIdx xs v with
            | none =>
                have := ih.mpr h2
                rw [hf] at this
                simp at this
            | some i => simp [hf]

theorem firstIdx_eq_none (xs : List Node) (v : Node) (h : v ∉ xs) :
    firstIdx xs v = none := by
  cases hf : firstIdx xs v with
  | none => rfl
  | some i =>
      exact absurd ((firstIdx_isSome_iff xs v).mp (by simp [hf])) h

theorem getElem?_of_firstIdx (xs : List Node) (v : Node) (i : Nat)
    (h : firstIdx xs v = some i) : xs[i]? = some v := by
  induction xs generalizing i with
  | nil => simp [firstIdx] at h
  | cons x xs ih =>
      by_cases hx : x = v
      · rw [firstIdx_cons, if_pos hx] at h
        cases h
        simpa using hx
      · rw [firstIdx_cons, if_neg hx] at h
        cases hf : firstIdx xs v with
        | none => rw [hf] at h; simp at h
        | some j =>
            rw [hf] at h
            simp only [Option.map_some'] at h
            cases h
            simpa using ih j hf

theorem firstIdx_of_getElem? (xs : List Node) (v : Node) (i : Nat)
    (hnd : xs.Nodup) (h : xs[i]? = some v) : firstIdx xs v = some i := by
  induction xs generalizing i with
  | nil => simp at h
  | cons x xs ih =>
      cases i with
      | zero =>
          simp at h
          simp [firstIdx_cons, h]
      | succ i2 =>
          simp only [List.getElem?_cons_succ] at h
          have hmem : v ∈ xs := by
            rcases List.getElem?_eq_some.mp h with ⟨hlt, hv⟩
            exact hv ▸ List.getElem_mem hlt
          have hx : x ≠ v := fun hh =>
            (List.nodup_cons.mp hnd).1 (hh ▸ hmem)
          rw [firstIdx_cons, if_neg hx, ih i2 (List.nodup_cons.mp hnd).2 h]
          rfl

theorem visAfter_append (vis : List Node) (l l2 : List DFSEvent) :
    visAfter vis (l ++ l2) = visAfter (visAfter vis l) l2 := by
  induction l generalizing vis with
  | nil => rfl
  | cons e rest ih => cases e <;> simp [visAfter, ih]

theorem guardedFrom_append (cond : Node → Node → Bool) (vis : List Node)
    (l l2 : List DFSEvent) :
    guardedFrom cond vis (l ++ l2) =
      (guardedFrom cond vis l && guardedFrom cond (visAfter vis l) l2) := by
  induction l generalizing vis with
  | nil => simp [guardedFrom, visAfter]
  | cons e rest ih =>
      cases e with
      | visit n => simp [guardedFrom, visAfter, ih]
      | scan u v => simp [guardedFrom, visAfter, ih]
      | push v u =>
          by_cases hv : v ∈ vis <;>
            simp [guardedFrom, visAfter, hv, ih, Bool.and_assoc]

theorem no_push_after_visit (cond : Node → Node → Bool) (n : Node)
    (l : List DFSEvent) (vis : List Node) (hmem : n ∈ vis)
    (hg : guardedFrom cond vis l = true) :
    l.filterMap (pushParent? n) = [] := by
  induction l generalizing vis with
  | nil => rfl
  | cons e rest ih =>
      cases e with
      | visit m =>
          exact ih (m :: vis) (List.mem_cons_of_mem m hmem) hg
      | scan u v =>
          exact ih vis hmem hg
      | push v u =>
          by_cases hv : v ∈ vis
          · simp [guardedFrom, hv] at hg
          · simp only [guardedFrom, if_neg hv, Bool.and_eq_true] at hg
            have hvn : v ≠ n := fun hh => hv (hh ▸ hmem)
            simp [pushParent?, hvn, ih vis hmem hg.2]

/-! ## Projections of the DFS state transformers -/

@[simp] theorem touchKey_visited (s : DFSState) (v : Node) :
    (touchKey s v).visited = s.visited := by
  unfold touchKey; split <;> rfl

@[simp] theorem touchKey_workList (s : DFSState) (v : Node) :
    (touchKey s v).workList = s.workList := by
  unfold touchKey; split <;> rfl

@[simp] theorem touchKey_numToNode (s : DFSState) (v : Node) :
    (touchKey s v).numToNode = s.numToNode := by
  unfold touchKey; split <;> rfl

@[simp] theorem touchKey_nextDFSNum (s : DFSState) (v : Node) :
    (touchKey s v).nextDFSNum = s.nextDFSNum := by
  unfold touchKey; split <;> rfl

@[simp] theorem touchKey_info (s : DFSState) (v : Node) :
    (touchKey s v).info = s.info := by
  unfold touchKey; split <;> rfl

@[simp] theorem touchKey_log (s : DFSState) (v : Node) :
    (touchKey s v).log = s.log := by
  unfold touchKey; split <;> rfl

theorem touchKey_keys_mono (s : DFSState) (v x : Node) (h : x ∈ s.keys) :
    x ∈ (touchKey s v).keys := by
  unfold touchKey
  split
  · exact h
  · exact List.mem_append_left _ h

theorem touchKey_keys_self (s : DFSState) (v : Node) :
    v ∈ (touchKey s v).keys := by
  unfold touchKey
  split
  · assumption
  · exact List.mem_append_right _ (List.mem_singleton.mpr rfl)

@[simp] theorem updateInfo_visited (s : DFSState) (v : Node) (f : DFSNodeInfo → DFSNodeInfo) :
    (updateInfo s v f).visited = s.visited := rfl

@[simp] theorem updateInfo_workList (s : DFSState) (v : Node) (f : DFSNodeInfo → DFSNodeInfo) :
    (updateInfo s v f).workList = s.workList := rfl

@[simp] theorem updateInfo_numToNode (s : DFSState) (v : Node) (f : DFSNodeInfo → DFSNodeInfo) :
    (updateInfo s v f).numToNode = s.numToNode := rfl

@[simp] theorem updateInfo_nextDFSNum (s : DFSState) (v : Node) (f : DFSNodeInfo → DFSNodeInfo) :
    (updateInfo s v f).nextDFSNum = s.nextDFSNum := rfl

@[simp] theorem updateInfo_keys (s : DFSState) (v : Node) (f : DFSNodeInfo → DFSNodeInfo) :
    (updateInfo s v f).keys = s.keys := rfl

@[simp] theorem updateInfo_log (s : DFSState) (v : Node) (f : DFSNodeInfo → DFSNodeInfo) :
    (updateInfo s v f).log = s.log := rfl

theorem updateInfo_info (s : DFSState) (v : Node) (f : DFSNodeInfo → DFSNodeInfo) (x : Node) :
    (updateInfo s v f).info x = if x = v then f (s.info v) else s.info x := rfl

theorem scanSucc_visited (cond : Node → Node → Bool) (BB : Node) (s : DFSState) (Succ : Node) :
    (scanSucc cond BB s Succ).visited = s.visited := by
  unfold scanSucc
  split <;> split <;> simp

theorem scanSucc_numToNode (cond : Node → Node → Bool) (BB : Node) (s : DFSState) (Succ : Node) :
    (scanSucc cond BB s Succ).numToNode = s.numToNode := by
  unfold scanSucc
  split <;> split <;> simp

theorem scanSucc_nextDFSNum (cond : Node → Node → Bool) (BB : Node) (s : DFSState) (Succ : Node) :
    (scanSucc cond BB s Succ).nextDFSNum = s.nextDFSNum := by
  unfold scanSucc
  split <;> split <;> simp

theorem scanSucc_log_pushed (cond : Node → Node → Bool) (BB : Node) (s : DFSState) (Succ : Node)
    (hp : Succ ∉ s.visited ∧ cond BB Succ = true) :
    (scanSucc cond BB s Succ).log =
      s.log ++ [DFSEvent.scan BB Succ, DFSEvent.push Succ BB] := by
  unfold scanSucc
  rw [if_pos hp]
  split <;> simp

theorem scanSucc_log_not_pushed (cond : Node → Node → Bool) (BB : Node) (s : DFSState)
    (Succ : Node) (hp : ¬(Succ ∉ s.visited ∧ cond BB Succ = true)) :
    (scanSucc cond BB s Succ).log = s.log ++ [DFSEvent.scan BB Succ] := by
  unfold scanSucc
  rw [if_neg hp]
  split <;> simp

theorem scanSucc_workList_pushed (cond : Node → Node → Bool) (BB : Node) (s : DFSState)
    (Succ : Node) (hp : Succ ∉ s.visited ∧ cond BB Succ = true) :
    (scanSucc cond BB s Succ).workList = Succ :: s.workList := by
  unfold scanSucc
  rw [if_pos hp]
  split <;> simp

theorem scanSucc_workList_not_pushed (cond : Node → Node → Bool) (BB : Node) (s : DFSState)
    (Succ : Node) (hp : ¬(Succ ∉ s.visited ∧ cond BB Succ = true)) :
    (scanSucc cond BB s Succ).workList = s.workList := by
  unfold scanSucc
  rw [if_neg hp]
  split <;> simp

theorem scanSucc_info_ne (cond : Node → Node → Bool) (BB : Node) (s : DFSState) (Succ : Node)
    (x : Node) (hx : x ≠ Succ) :
    (scanSucc cond BB s Succ).info x = s.info x := by
  unfold scanSucc
  split <;> split <;> simp [updateInfo_info, hx]

theorem scanSucc_info_num (cond : Node → Node → Bool) (BB : Node) (s : DFSState) (Succ : Node) :
    ((scanSucc cond BB s Succ).info Succ).Num = (s.info Succ).Num := by
  unfold scanSucc
  split <;> split <;> simp [updateInfo_info]

theorem scanSucc_info_preds (cond : Node → Node → Bool) (BB : Node) (s : DFSState)
    (Succ : Node) :
    ((scanSucc cond BB s Succ).info Succ).Predecessors =
      (s.info Succ).Predecessors ++ (if Succ ≠ BB then [BB] else []) := by
  unfold scanSucc
  split <;> split <;> simp_all [updateInfo_info]

theorem scanSucc_info_parent_pushed (cond : Node → Node → Bool) (BB : Node) (s : DFSState)
    (Succ : Node) (hp : Succ ∉ s.visited ∧ cond BB Succ = true) :
    ((scanSucc cond BB s Succ).info Succ).Parent = some BB := by
  unfold scanSucc
  rw [if_pos hp]
  split <;> simp [updateInfo_info]

theorem scanSucc_info_parent_not_pushed (cond : Node → Node → Bool) (BB : Node) (s : DFSState)
    (Succ : Node) (hp : ¬(Succ ∉ s.visited ∧ cond BB Succ = true)) :
    ((scanSucc cond BB s Succ).info Succ).Parent = (s.info Succ).Parent := by
  unfold scanSucc
  rw [if_neg hp]
  split <;> simp [updateInfo_info]

theorem scanSucc_keys_mono (cond : Node → Node → Bool) (BB : Node) (s : DFSState) (Succ : Node)
    (x : Node) (h : x ∈ s.keys) : x ∈ (scanSucc cond BB s Succ).keys := by
  unfold scanSucc
  split <;> split <;> simpa using touchKey_keys_mono s Succ x h

theorem scanSucc_keys_self (cond : Node → Node → Bool) (BB : Node) (s : DFSState)
    (Succ : Node) : Succ ∈ (scanSucc cond BB s Succ).keys := by
  unfold scanSucc
  split <;> split <;> simpa using touchKey_keys_self s Succ

theorem visitNode_visited (s : DFSState) (BB : Node) :
    (visitNode s BB).visited = BB :: s.visited := by
  simp [visitNode]

theorem visitNode_workList (s : DFSState) (BB : Node) :
    (visitNode s BB).workList = s.workList := by
  simp [visitNode]

theorem visitNode_numToNode (s : DFSState) (BB : Node) :
    (visitNode s BB).numToNode = s.numToNode ++ [BB] := by
  simp [visitNode]

theorem visitNode_nextDFSNum (s : DFSState) (BB : Node) :
    (visitNode s BB).nextDFSNum = s.nextDFSNum + 1 := by
  simp [visitNode]

theorem visitNode_log (s : DFSState) (BB : Node) :
    (visitNode s BB).log = s.log ++ [DFSEvent.visit BB] := by
  simp [visitNode]

theorem visitNode_info_ne (s : DFSState) (BB : Node) (x : Node) (hx : x ≠ BB) :
    (visitNode s BB).info x = s.info x := by
  simp [visitNode, updateInfo_info, hx]

theorem visitNode_info_self (s : DFSState) (BB : Node) :
    (visitNode s BB).info BB = { s.info BB with Num := some s.nextDFSNum } := by
  simp [visitNode, updateInfo_info]

theorem visitNode_keys_mono (s : DFSState) (BB : Node) (x : Node) (h : x ∈ s.keys) :
    x ∈ (visitNode s BB).keys := by
  simpa [visitNode] using touchKey_keys_mono s BB x h

theorem visitNode_keys_self (s : DFSState) (BB : Node) :
    BB ∈ (visitNode s BB).keys := by
  simpa [visitNode] using touchKey_keys_self s BB

/-! ## Evaluation of the log selectors on single events -/

@[simp] theorem pushParent?_visit (v n : Node) : pushParent? v (DFSEvent.visit n) = none := rfl

@[simp] theorem pushParent?_scan (v u w : Node) : pushParent? v (DFSEvent.scan u w) = none := rfl

theorem pushParent?_push (v w u : Node) :
    pushParent? v (DFSEvent.push w u) = if w = v then some u else none := rfl

@[simp] theorem scanSrc?_visit (v n : Node) : scanSrc? v (DFSEvent.visit n) = none := rfl

theorem scanSrc?_scan (v u w : Node) :
    scanSrc? v (DFSEvent.scan u w) = if w = v ∧ u ≠ v then some u else none := rfl

@[simp] theorem scanSrc?_push (v w u : Node) : scanSrc? v (DFSEvent.push w u) = none := rfl

@[simp] theorem visitEv?_visit (n : Node) : visitEv? (DFSEvent.visit n) = some n := rfl

@[simp] theorem visitEv?_scan (u w : Node) : visitEv? (DFSEvent.scan u w) = none := rfl

@[simp] theorem visitEv?_push (w u : Node) : visitEv? (DFSEvent.push w u) = none := rfl

theorem filterMap_concat2 {α β : Type} (f : α → Option β) (l : List α) (e1 e2 : α) :
    (l ++ [e1, e2]).filterMap f = l.filterMap f ++ (f e1).toList ++ (f e2).toList := by
  cases h1 : f e1 <;> cases h2 : f e2 <;>
    simp [List.filterMap_append, h1, h2]

/-! ## Preservation of the invariant by the loop body -/

theorem scanSucc_pres (cond : Node → Node → Bool) (start BB Succ : Node) (s : DFSState)
    (h : DFSInv cond start s) (hh : s.log.head? = some (DFSEvent.visit start)) :
    DFSInv cond start (scanSucc cond BB s Succ) ∧
      (scanSucc cond BB s Succ).log.head? = some (DFSEvent.visit start) := by
  have hlogne : s.log ≠ [] := by
    intro he
    rw [he] at hh
    exact Option.noConfusion hh
  by_cases hp : Succ ∉ s.visited ∧ cond BB Succ = true
  · -- the successor is scheduled: a scan and a push event are appended
    have hlog := scanSucc_log_pushed cond BB s Succ hp
    have hhd : (scanSucc cond BB s Succ).log.head? = some (DFSEvent.visit start) := by
      rw [hlog, head?_append_left _ _ hlogne, hh]
    refine ⟨⟨?_, ?_, ?_, ?_, ?_, ?_, ?_, ?_, ?_, ?_, ?_, ?_⟩, hhd⟩
    · intro v
      rw [scanSucc_visited, scanSucc_numToNode]
      exact h.visitedIff v
    · rw [scanSucc_numToNode]
      exact h.nodup
    · intro v
      by_cases hv : v = Succ
      · subst hv
        rw [scanSucc_info_num, scanSucc_numToNode]
        exact h.numEq v
      · rw [scanSucc_info_ne cond BB s Succ v hv, scanSucc_numToNode]
        exact h.numEq v
    · rw [scanSucc_nextDFSNum, scanSucc_numToNode]
      exact h.nextEq
    · intro v
      rw [hlog, filterMap_concat2]
      by_cases hv : v = Succ
      · subst hv
        rw [scanSucc_info_parent_pushed cond BB s v hp]
        simp [pushParent?_push]
      · rw [scanSucc_info_ne cond BB s Succ v hv]
        have : pushParent? v (DFSEvent.push Succ BB) = none := by
          rw [pushParent?_push, if_neg (fun hc => hv hc.symm)]
        simp [this, h.parentEq v]
    · intro v
      rw [hlog, filterMap_concat2]
      by_cases hv : v = Succ
      · subst hv
        rw [scanSucc_info_preds]
        by_cases hb : BB = v
        · subst hb
          simp [scanSrc?_scan, h.predsEq BB]
        · rw [if_pos (fun hc => hb hc.symm)]
          rw [scanSrc?_scan, if_pos ⟨rfl, hb⟩]
          simp [h.predsEq v]
      · rw [scanSucc_info_ne cond BB s Succ v hv]
        have : scanSrc? v (DFSEvent.scan BB Succ) = none := by
          rw [scanSrc?_scan, if_neg (fun hc => hv hc.1.symm)]
        simp [this, h.predsEq v]
    · rw [hlog, filterMap_concat2, scanSucc_numToNode]
      simp [h.visitsEq]
    · rw [hlog, guardedFrom_append, h.guarded, h.visSync]
      simp [guardedFrom, hp.1, hp.2]
    · rw [hlog, scanSucc_visited, visAfter_append, h.visSync]
      rfl
    · intro u v hmem
      rw [hlog] at hmem
      rcases List.mem_append.mp hmem with hold | hnew
      · exact scanSucc_keys_mono cond BB s Succ v (h.scanKey u v hold)
      · rcases List.mem_cons.mp hnew with he | he2
        · injection he with h1 h2
          rw [h2]
          exact scanSucc_keys_self cond BB s Succ
        · rw [List.mem_singleton] at he2
          exact DFSEvent.noConfusion he2
    · intro v hv
      rw [scanSucc_numToNode] at hv
      exact scanSucc_keys_mono cond BB s Succ v (h.visitKey v hv)
    · exact Or.inr hhd
  · -- the successor is not scheduled: only a scan event is appended
    have hlog := scanSucc_log_not_pushed cond BB s Succ hp
    have hhd : (scanSucc cond BB s Succ).log.head? = some (DFSEvent.visit start) := by
      rw [hlog, head?_append_left _ _ hlogne, hh]
    refine ⟨⟨?_, ?_, ?_, ?_, ?_, ?_, ?_, ?_, ?_, ?_, ?_, ?_⟩, hhd⟩
    · intro v
      rw [scanSucc_visited, scanSucc_numToNode]
      exact h.visitedIff v
    · rw [scanSucc_numToNode]
      exact h.nodup
    · intro v
      by_cases hv : v = Succ
      · subst hv
        rw [scanSucc_info_num, scanSucc_numToNode]
        exact h.numEq v
      · rw [scanSucc_info_ne cond BB s Succ v hv, scanSucc_numToNode]
        exact h.numEq v
    · rw [scanSucc_nextDFSNum, scanSucc_numToNode]
      exact h.nextEq
    · intro v
      rw [hlog, filterMap_concat]
      by_cases hv : v = Succ
      · subst hv
        rw [scanSucc_info_parent_not_pushed cond BB s v hp]
        simp [h.parentEq v]
      · rw [scanSucc_info_ne cond BB s Succ v hv]
        simp [h.parentEq v]
    · intro v
      rw [hlog, filterMap_concat]
      by_cases hv : v = Succ
      · subst hv
        rw [scanSucc_info_preds]
        by_cases hb : BB = v
        · subst hb
          simp [scanSrc?_scan, h.predsEq BB]
        · rw [if_pos (fun hc => hb hc.symm)]
          rw [scanSrc?_scan, if_pos ⟨rfl, hb⟩]
          simp [h.predsEq v]
      · rw [scanSucc_info_ne cond BB s Succ v hv]
        have : scanSrc? v (DFSEvent.scan BB Succ) = none := by
          rw [scanSrc?_scan, if_neg (fun hc => hv hc.1.symm)]
        simp [this, h.predsEq v]
    · rw [hlog, filterMap_concat, scanSucc_numToNode]
      simp [h.visitsEq]
    · rw [hlog, guardedFrom_append, h.guarded]
      rfl
    · rw [hlog, scanSucc_visited, visAfter_append, h.visSync]
      rfl
    · intro u v hmem
      rw [hlog] at hmem
      rcases List.mem_append.mp hmem with hold | hnew
      · exact scanSucc_keys_mono cond BB s Succ v (h.scanKey u v hold)
      · rw [List.mem_singleton] at hnew
        injection hnew with h1 h2
        rw [h2]
        exact scanSucc_keys_self cond BB s Succ
    · intro v hv
      rw [scanSucc_numToNode] at hv
      exact scanSucc_keys_mono cond BB s Succ v (h.visitKey v hv)
    · exact Or.inr hhd

theorem foldl_scan_pres (cond : Node → Node → Bool) (start BB : Node) (l : List Node)
    (s : DFSState) (h : DFSInv cond start s)
    (hh : s.log.head? = some (DFSEvent.visit start)) :
    DFSInv cond start (l.foldl (scanSucc cond BB) s) ∧
      (l.foldl (scanSucc cond BB) s).log.head? = some (DFSEvent.visit start) := by
  induction l generalizing s with
  | nil => exact ⟨h, hh⟩
  | cons x xs ih =>
      obtain ⟨h2, hh2⟩ := scanSucc_pres cond start BB x s h hh
      exact ih (scanSucc cond BB s x) h2 hh2

theorem visitNode_pres (cond : Node → Node → Bool) (start BB : Node) (rest : List Node)
    (s : DFSState) (h : DFSInv cond start s) (hBB : BB ∉ s.visited)
    (hstart : s.log = [] → BB = start) :
    DFSInv cond start (visitNode { s with workList := rest } BB) ∧
      (visitNode { s with workList := rest } BB).log.head? = some (DFSEvent.visit start) := by
  set t : DFSState := { s with workList := rest } with ht
  have hBBn : BB ∉ s.numToNode := fun hc => hBB ((h.visitedIff BB).mpr hc)
  have hhd : (visitNode t BB).log.head? = some (DFSEvent.visit start) := by
    rw [visitNode_log]
    show (s.log ++ [DFSEvent.visit BB]).head? = some (DFSEvent.visit start)
    cases hl : s.log with
    | nil =>
        rw [hstart hl]
        rfl
    | cons e es =>
        rw [head?_append_left _ _ (by simp)]
        rcases h.headVisit with ⟨hl2, _, _⟩ | hhd2
        · rw [hl] at hl2
          exact List.noConfusion hl2
        · rw [hl] at hhd2
          exact hhd2
  refine ⟨⟨?_, ?_, ?_, ?_, ?_, ?_, ?_, ?_, ?_, ?_, ?_, ?_⟩, hhd⟩
  · intro v
    rw [visitNode_visited, visitNode_numToNode]
    show v ∈ BB :: s.visited ↔ v ∈ s.numToNode ++ [BB]
    rw [List.mem_cons, List.mem_append, List.mem_singleton, ← h.visitedIff v]
    exact or_comm
  · rw [visitNode_numToNode]
    show (s.numToNode ++ [BB]).Nodup
    refine List.Nodup.append h.nodup (List.nodup_singleton BB) ?_
    intro x hx hx2
    rw [List.mem_singleton] at hx2
    subst hx2
    exact hBBn hx
  · intro v
    by_cases hv : v = BB
    · subst hv
      rw [visitNode_info_self, visitNode_numToNode]
      show some s.nextDFSNum = firstIdx (s.numToNode ++ [v]) v
      rw [firstIdx_append_self s.numToNode v hBBn, h.nextEq]
    · rw [visitNode_info_ne t BB v hv, visitNode_numToNode]
      show (s.info v).Num = firstIdx (s.numToNode ++ [BB]) v
      rw [firstIdx_append_ne s.numToNode v BB hv, h.numEq v]
  · rw [visitNode_nextDFSNum, visitNode_numToNode]
    show s.nextDFSNum + 1 = (s.numToNode ++ [BB]).length
    rw [List.length_append, h.nextEq]
    rfl
  · intro v
    rw [visitNode_log]
    show _ = ((s.log ++ [DFSEvent.visit BB]).filterMap (pushParent? v)).getLast?
    rw [filterMap_concat]
    by_cases hv : v = BB
    · subst hv
      rw [visitNode_info_self]
      simp [h.parentEq v]
    · rw [visitNode_info_ne t BB v hv]
      simp [h.parentEq v]
  · intro v
    rw [visitNode_log]
    show _ = (s.log ++ [DFSEvent.visit BB]).filterMap (scanSrc? v)
    rw [filterMap_concat]
    by_cases hv : v = BB
    · subst hv
      rw [visitNode_info_self]
      simp [h.predsEq v]
    · rw [visitNode_info_ne t BB v hv]
      simp [h.predsEq v]
  · rw [visitNode_log, visitNode_numToNode]
    show (s.log ++ [DFSEvent.visit BB]).filterMap visitEv? = s.numToNode ++ [BB]
    rw [filterMap_concat, h.visitsEq]
    rfl
  · rw [visitNode_log]
    show guardedFrom cond [] (s.log ++ [DFSEvent.visit BB]) = true
    rw [guardedFrom_append, h.guarded]
    rfl
  · rw [visitNode_log, visitNode_visited]
    show visAfter [] (s.log ++ [DFSEvent.visit BB]) = BB :: s.visited
    rw [visAfter_append, h.visSync]
    rfl
  · intro u v hmem
    rw [visitNode_log] at hmem
    have hmem2 : DFSEvent.scan u v ∈ s.log ++ [DFSEvent.visit BB] := hmem
    rcases List.mem_append.mp hmem2 with hold | hnew
    · exact visitNode_keys_mono t BB v (h.scanKey u v hold)
    · rw [List.mem_singleton] at hnew
      exact DFSEvent.noConfusion hnew
  · intro v hv
    rw [visitNode_numToNode] at hv
    have hv2 : v ∈ s.numToNode ++ [BB] := hv
    rcases List.mem_append.mp hv2 with hold | hnew
    · exact visitNode_keys_mono t BB v (h.visitKey v hold)
    · rw [List.mem_singleton] at hnew
      subst hnew
      exact visitNode_keys_self t v
  · exact Or.inr hhd

theorem dfsStep_pres (g : Node → List Node) (cond : Node → Node → Bool) (start : Node)
    (s : DFSState) (h : DFSInv cond start s) : DFSInv cond start (dfsStep g cond s) := by
  rcases hw : s.workList with _ | ⟨BB, rest⟩
  · unfold dfsStep
    rw [hw]
    exact h
  · by_cases hv : BB ∈ s.visited
    · simp only [dfsStep, hw, if_pos hv]
      refine ⟨h.visitedIff, h.nodup, h.numEq, h.nextEq, h.parentEq, h.predsEq, h.visitsEq,
        h.guarded, h.visSync, h.scanKey, h.visitKey, ?_⟩
      rcases h.headVisit with ⟨hl, hwl, hn⟩ | hhd
      · exfalso
        have hBBn : BB ∈ s.numToNode := (h.visitedIff BB).mp hv
        rw [hn] at hBBn
        exact List.not_mem_nil BB hBBn
      · exact Or.inr hhd
    · simp only [dfsStep, hw, if_neg hv]
      have hstart : s.log = [] → BB = start := by
        intro hl
        rcases h.headVisit with ⟨_, hwl, _⟩ | hhd
        · rw [hw] at hwl
          exact (List.cons_eq_cons.mp hwl).1
        · rw [hl] at hhd
          exact Option.noConfusion hhd
      obtain ⟨h2, hh2⟩ := visitNode_pres cond start BB rest s h hv hstart
      exact (foldl_scan_pres cond start BB ((g BB).reverse) _ h2 hh2).1

theorem initState_inv (cond : Node → Node → Bool) (start : Node) :
    DFSInv cond start (initState start) := by
  refine ⟨?_, ?_, ?_, rfl, ?_, ?_, rfl, rfl, rfl, ?_, ?_, Or.inl ⟨rfl, rfl, rfl⟩⟩
  · intro v
    show v ∈ ([] : List Node) ↔ v ∈ ([] : List Node)
    exact Iff.rfl
  · exact List.nodup_nil
  · intro v
    rfl
  · intro v
    rfl
  · intro v
    rfl
  · intro u v hmem
    exact absurd hmem (List.not_mem_nil _)
  · intro v hv
    exact absurd hv (List.not_mem_nil _)

theorem dfsRun_inv (g : Node → List Node) (cond : Node → Node → Bool) (start : Node)
    (fuel : Nat) (s : DFSState) (h : DFSInv cond start s) :
    DFSInv cond start (dfsRun g cond fuel s) := by
  induction fuel generalizing s with
  | zero => exact h
  | succ n ih => exact ih (dfsStep g cond s) (dfsStep_pres g cond start s h)

/-- The master invariant: it holds of the `runDFS` state after any number
of loop iterations. -/
theorem runDFS_inv (g : Node → List Node) (cond : Node → Node → Bool) (start : Node)
    (fuel : Nat) : DFSInv cond start (runDFS g cond start fuel) :=
  dfsRun_inv g cond start fuel (initState start) (initState_inv cond start)

/-- The start node is never scheduled from anywhere: it is visited first,
and pushes only target unvisited nodes. -/
theorem runDFS_no_push_start (g : Node → List Node) (cond : Node → Node → Bool)
    (start : Node) (fuel : Nat) :
    (runDFS g cond start fuel).log.filterMap (pushParent? start) = [] := by
  have h := runDFS_inv g cond start fuel
  cases hlog : (runDFS g cond start fuel).log with
  | nil => rfl
  | cons e rest =>
      have hhd : (runDFS g cond start fuel).log.head? = some (DFSEvent.visit start) := by
        rcases h.headVisit with ⟨hl, _, _⟩ | hhd2
        · rw [hl] at hlog
          exact List.noConfusion hlog
        · exact hhd2
      rw [hlog] at hhd
      have he : e = DFSEvent.visit start := by
        simpa using hhd
      subst he
      have hg := h.guarded
      rw [hlog] at hg
      have hg2 : guardedFrom cond [start] rest = true := hg
      rw [List.filterMap_cons]
      simp only [pushParent?_visit]
      exact no_push_after_visit cond start rest [start] (List.mem_singleton.mpr rfl) hg2

/-! ## The claims -/

/-- C1, counterexample: the claim says every scanned successor edge
`(u, v)` — including self-edges `v = u` — appends `u` to `v`'s
predecessor list.  On the one-node CFG with the self-loop `0 → 0`, the
edge `(0, 0)` is scanned during `runDFS(0, ⊤)`, yet node 0's predecessor
list stays empty: `runDFS` guards the append with `if (Succ != BB)` and
prunes self-edges. -/
theorem c1_self_edge_counterexample :
    DFSEvent.scan 0 0 ∈ (runDFS gSelf condT 0 2).log ∧
    ((runDFS gSelf condT 0 2).info 0).Predecessors = [] := by
  constructor
  · decide
  · decide

/-- C1, amended: for every call `runDFS(start, descend)` and every node
`v`, `v`'s predecessor list in `nodeToInfo` is exactly the sequence of
sources of the scanned successor edges targeting `v` whose source
differs from `v` — every such edge is recorded (even when `v` was
already visited), none is pruned; self-edges `v = u` are the one
exception and are skipped. -/
theorem c1_dfs_predecessors (g : Node → List Node) (cond : Node → Node → Bool)
    (start : Node) (fuel : Nat) :
    (∀ v, ((runDFS g cond start fuel).info v).Predecessors
        = (runDFS g cond start fuel).log.filterMap (scanSrc? v)) ∧
    (∀ u v, DFSEvent.scan u v ∈ (runDFS g cond start fuel).log → u ≠ v →
        u ∈ ((runDFS g cond start fuel).info v).Predecessors) := by
  have h := runDFS_inv g cond start fuel
  refine ⟨h.predsEq, ?_⟩
  intro u v hmem hne
  rw [h.predsEq v]
  exact List.mem_filterMap.mpr
    ⟨DFSEvent.scan u v, hmem, by rw [scanSrc?_scan, if_pos ⟨rfl, hne⟩]⟩

/-- C1, witness: on the CFG `0 → 1`, the scanned edge `(0, 1)` records
`0` as a predecessor of `1`. -/
theorem c1_dfs_predecessors_witness :
    0 ∈ ((runDFS gLine condT 0 3).info 1).Predecessors :=
  (c1_dfs_predecessors gLine condT 0 3).2 0 1 (by decide) (by decide)

/-- C4, counterexample: the claim says `nodeToInfo[n].parent` is the node
from which `n` was *first* scheduled onto the stack.  On the CFG
`0 → 1, 0 → 2, 1 → 2`, node 2 is first scheduled from 0 (the first push
event targeting 2 has source 0), but before 2 is visited it is
re-scheduled from 1 and `SuccInfo.Parent` is overwritten, so the
recorded parent is 1. -/
theorem c4_parent_counterexample :
    2 ∈ (runDFS gSched condT 0 5).numToNode ∧ (2 : Node) ≠ 0 ∧
    ((runDFS gSched condT 0 5).log.filterMap (pushParent? 2)).head? = some 0 ∧
    ((runDFS gSched condT 0 5).info 2).Parent = some 1 := by
  refine ⟨by decide, by decide, by decide, by decide⟩

/-- C4, amended: in the result of `runDFS(start, descend)`,
`nodeToInfo[v].parent` is the node from which `v` was *most recently*
scheduled onto the stack (the last push event targeting `v`; all pushes
of `v` happen before `v` is visited), `none` if `v` was never scheduled,
and the parent of `start` is null. -/
theorem c4_dfs_parent (g : Node → List Node) (cond : Node → Node → Bool)
    (start : Node) (fuel : Nat) :
    ((runDFS g cond start fuel).info start).Parent = none ∧
    (∀ v, ((runDFS g cond start fuel).info v).Parent
        = ((runDFS g cond start fuel).log.filterMap (pushParent? v)).getLast?) := by
  have h := runDFS_inv g cond start fuel
  refine ⟨?_, h.parentEq⟩
  rw [h.parentEq start, runDFS_no_push_start]
  rfl

/-- C5: `runDFS` visits each node at most once — `numToNode` has no
duplicates and a node carries a DFS number exactly when it was visited —
and every push of a successor `v` from `u` in the walk happened with
`descend(u, v) = true` and `v` not yet visited at that moment
(`guardedFrom` replays the event log and checks exactly this). -/
theorem c5_dfs_visits_once (g : Node → List Node) (cond : Node → Node → Bool)
    (start : Node) (fuel : Nat) :
    (runDFS g cond start fuel).numToNode.Nodup ∧
    guardedFrom cond [] (runDFS g cond start fuel).log = true ∧
    (∀ v, v ∈ (runDFS g cond start fuel).visited ↔
        ((runDFS g cond start fuel).info v).Num.isSome = true) := by
  have h := runDFS_inv g cond start fuel
  refine ⟨h.nodup, h.guarded, ?_⟩
  intro v
  constructor
  · intro hv
    rw [h.numEq v]
    exact (firstIdx_isSome_iff _ v).mpr ((h.visitedIff v).mp hv)
  · intro hs
    rw [h.numEq v] at hs
    exact (h.visitedIff v).mpr ((firstIdx_isSome_iff _ v).mp hs)

/-- C7: `numToNode` is indexed by DFS number — `numToNode[i] = v` implies
`nodeToInfo[v].num = i`, and conversely `nodeToInfo[v].num = i` implies
`numToNode[i] = v`. -/
theorem c7_dfs_numbering (g : Node → List Node) (cond : Node → Node → Bool)
    (start : Node) (fuel : Nat) :
    (∀ i v, (runDFS g cond start fuel).numToNode[i]? = some v →
        ((runDFS g cond start fuel).info v).Num = some i) ∧
    (∀ v i, ((runDFS g cond start fuel).info v).Num = some i →
        (runDFS g cond start fuel).numToNode[i]? = some v) := by
  have h := runDFS_inv g cond start fuel
  constructor
  · intro i v hget
    rw [h.numEq v]
    exact firstIdx_of_getElem? _ v i h.nodup hget
  · intro v i hnum
    rw [h.numEq v] at hnum
    exact getElem?_of_firstIdx _ v i hnum

/-- C7, witness: on the CFG `0 → 1`, node 1 sits at index 1 of
`numToNode` and carries DFS number 1. -/
theorem c7_dfs_numbering_witness :
    ((runDFS gLine condT 0 3).info 1).Num = some 1 ∧
    (runDFS gLine condT 0 3).numToNode[1]? = some 1 :=
  ⟨(c7_dfs_numbering gLine condT 0 3).1 1 1 (by decide),
   (c7_dfs_numbering gLine condT 0 3).2 1 1 (by decide)⟩

/-- C10: every scanned successor gets a `nodeToInfo` entry even when the
descend predicate rejects it (`DenseMap::operator[]` creates the entry
before the descend check); a node outside `numToNode` has no assigned
DFS number; and concretely, on the CFG `0 → 1` with an always-false
descend predicate, node 1 has an entry with predecessor list `[0]` and
no DFS number while only node 0 was visited — the key set is a strict
superset of the visited set. -/
theorem c10_dfs_rejected_entries (g : Node → List Node) (cond : Node → Node → Bool)
    (start : Node) (fuel : Nat) :
    (∀ u v, DFSEvent.scan u v ∈ (runDFS g cond start fuel).log →
        v ∈ (runDFS g cond start fuel).keys) ∧
    (∀ v, v ∉ (runDFS g cond start fuel).numToNode →
        ((runDFS g cond start fuel).info v).Num = none) ∧
    (1 ∈ (runDFS gLine condF 0 2).keys ∧
     1 ∉ (runDFS gLine condF 0 2).numToNode ∧
     ((runDFS gLine condF 0 2).info 1).Predecessors = [0] ∧
     ((runDFS gLine condF 0 2).info 1).Num = none) := by
  have h := runDFS_inv g cond start fuel
  refine ⟨h.scanKey, ?_, by decide, by decide, by decide, by decide⟩
  intro v hv
  rw [h.numEq v]
  exact firstIdx_eq_none _ v hv

/-- C10, witness: instantiating the general parts on the concrete
rejected-successor run. -/
theorem c10_dfs_rejected_entries_witness :
    1 ∈ (runDFS gLine condF 0 2).keys ∧
    ((runDFS gLine condF 0 2).info 1).Num = none :=
  ⟨(c10_dfs_rejected_entries gLine condF 0 2).1 0 1 (by decide),
   (c10_dfs_rejected_entries gLine condF 0 2).2.1 1 (by decide)⟩

/-- C2, counterexample: the claim says `readFromFile` reports an
unrecognized opcode, a malformed line, and a second `p` header as
*recoverable* errors rather than via a fatal abort.  In the source all
three paths go through `llvm_unreachable` / `assert` — modelled here as
the `Except.error` abort channel — as these three inputs show. -/
theorem c2_fatal_abort_counterexample :
    readFromFile ["q 1 2"] = Except.error FatalAbort.unknownAction ∧
    readFromFile ["a 1"] = Except.error FatalAbort.parseError ∧
    readFromFile ["p 4 0 1 0", "p 4 0 1 0"] = Except.error FatalAbort.doubleInit :=
  ⟨rfl, rfl, rfl⟩

/-- C2, amended: a malformed harness line, an unrecognized opcode, and a
second `p` header line are all treated by `InputGraph::readFromFile` as
fatal programmer errors — `llvm_unreachable("Unknown action")`,
`llvm_unreachable("Parse error")` and `assert(... && "Double init?")` —
not as recoverable errors: whatever was already parsed, an unknown
opcode line aborts with `unknownAction`, an `a` line with a missing
operand aborts with `parseError`, and a `p` line after a nonzero node
count aborts with `doubleInit`. -/
theorem c2_harness_aborts :
    (∀ (g : InputGraph) (rest : List String),
        readLines g ("q 0 0" :: rest) = Except.error FatalAbort.unknownAction) ∧
    (∀ (g : InputGraph) (rest : List String),
        readLines g ("a 1" :: rest) = Except.error FatalAbort.parseError) ∧
    (∀ (g : InputGraph) (rest : List String), g.nodesNum ≠ 0 →
        readLines g ("p 4 0 1 0" :: rest) = Except.error FatalAbort.doubleInit) := by
  refine ⟨fun g rest => rfl, fun g rest => rfl, fun g rest hne => ?_⟩
  have h1 : readLines g ("p 4 0 1 0" :: rest) =
      match processLine g "p 4 0 1 0" with
      | Except.error e => Except.error e
      | Except.ok g2 => readLines g2 rest := rfl
  have hp : processLine g "p 4 0 1 0" =
      if g.nodesNum ≠ 0 then Except.error FatalAbort.doubleInit
      else Except.ok { g with nodesNum := 4, entry := 1 } := rfl
  rw [h1, hp, if_pos hne]

/-- C2, witness: replaying the double-init abort on a graph already
initialized with 4 nodes. -/
theorem c2_harness_aborts_witness :
    readLines { nodesNum := 4, entry := 1 } ["p 4 0 1 0"]
      = Except.error FatalAbort.doubleInit :=
  c2_harness_aborts.2.2 { nodesNum := 4, entry := 1 } [] (by decide)

theorem removeFirstCaseTo_map_snd (cs : List (Nat × Node)) (To : Node) :
    (removeFirstCaseTo cs To).map (fun c => c.2) = (cs.map (fun c => c.2)).erase To := by
  induction cs with
  | nil => rfl
  | cons c rest ih =>
      by_cases hc : c.2 = To <;>
        simp [removeFirstCaseTo, hc, List.erase_cons, ih]

/-- C3: when `From`'s switch terminator has an arc to `To`, `disconnect`
removes precisely one occurrence of `To` from the successor multiset
(the default or the first matching case, collapsing the default onto the
first remaining case when the default matched) and leaves arcs to all
other targets in place: the successor multiset after equals the
successor multiset before with one `To` erased. -/
theorem c3_disconnect_removes_arc (sw : SwitchTerm) (To : Node)
    (h : To ∈ switchSuccs sw) :
    (↑(termSuccs (disconnectTerm sw To)) : Multiset Node)
      = (↑(switchSuccs sw) : Multiset Node).erase To := by
  unfold disconnectTerm
  by_cases h0 : sw.cases.length = 0
  · rw [if_pos h0]
    have hc : sw.cases = [] := List.length_eq_zero.mp h0
    have hd : sw.defaultDest = To := by
      rw [switchSuccs, hc] at h
      exact (List.mem_singleton.mp (by simpa using h)).symm
    rw [switchSuccs, hc, hd]
    simp [termSuccs]
  · rw [if_neg h0]
    by_cases hd : sw.defaultDest = To
    · rw [if_pos hd]
      cases hc : sw.cases with
      | nil => exact absurd (by rw [hc]; rfl) h0
      | cons c rest =>
          show (↑(termSuccs (some { defaultDest := c.2, cases := rest })) : Multiset Node) = _
          rw [termSuccs, switchSuccs, switchSuccs, hd, hc]
          simp
    · rw [if_neg hd]
      have hmem : To ∈ sw.cases.map (fun c => c.2) := by
        rw [switchSuccs] at h
        rcases List.mem_cons.mp h with h1 | h2
        · exact absurd h1.symm hd
        · exact h2
      show (↑(termSuccs (some _)) : Multiset Node) = _
      rw [termSuccs, switchSuccs, switchSuccs, removeFirstCaseTo_map_snd]
      calc (↑(sw.defaultDest :: (sw.cases.map (fun c => c.2)).erase To) : Multiset Node)
          = sw.defaultDest ::ₘ (↑((sw.cases.map (fun c => c.2)).erase To) : Multiset Node) := by
            rw [Multiset.cons_coe]
        _ = sw.defaultDest ::ₘ (↑(sw.cases.map (fun c => c.2)) : Multiset Node).erase To := by
            rw [Multiset.coe_erase]
        _ = ((sw.defaultDest ::ₘ ↑(sw.cases.map (fun c => c.2))) : Multiset Node).erase To := by
            rw [Multiset.erase_cons_tail _ (fun hh => hd hh)]
        _ = (↑(sw.defaultDest :: sw.cases.map (fun c => c.2)) : Multiset Node).erase To := by
            rw [Multiset.cons_coe]

/-- C3, witness: on `switch` with default `5` and cases `0 → 7, 1 → 5`,
disconnecting `5` collapses the default onto `7` and the successor
multiset loses exactly one `5`. -/
theorem c3_disconnect_removes_arc_witness :
    5 ∈ switchSuccs { defaultDest := 5, cases := [(0, 7), (1, 5)] } ∧
    (↑(termSuccs (disconnectTerm { defaultDest := 5, cases := [(0, 7), (1, 5)] } 5))
        : Multiset Node)
      = (↑(switchSuccs { defaultDest := 5, cases := [(0, 7), (1, 5)] }) : Multiset Node).erase 5 :=
  ⟨by decide, c3_disconnect_removes_arc { defaultDest := 5, cases := [(0, 7), (1, 5)] } 5
      (by decide)⟩

theorem connectTerm_succs (t : Option SwitchTerm) (To : Node) :
    termSuccs (some (connectTerm t To)) = termSuccs t ++ [To] := by
  cases t <;> simp [connectTerm, termSuccs, switchSuccs]

theorem toCFG_term_succs (arcs : List (Nat × Nat)) (m : Nat → Option SwitchTerm) (k : Nat) :
    termSuccs ((arcs.foldl
        (fun m a => fun x => if x = a.1 then some (connectTerm (m x) a.2) else m x) m) k)
      = termSuccs (m k) ++ (arcs.filter (fun a => a.1 = k)).map (fun a => a.2) := by
  induction arcs generalizing m with
  | nil => simp
  | cons a rest ih =>
      rw [List.foldl_cons, ih]
      by_cases hk : a.1 = k
      · rw [if_pos hk.symm, connectTerm_succs]
        simp [hk]
      · rw [if_neg (fun hc => hk hc.symm)]
        simp [hk]

theorem lookup_map_self (f : Nat → String) (l : List Nat) (k : Nat) (hk : k ∈ l) :
    (l.map (fun i => (i, f i))).lookup k = some (f k) := by
  induction l with
  | nil => exact absurd hk (List.not_mem_nil k)
  | cons x xs ih =>
      by_cases hx : k = x
      · subst hx
        simp [List.lookup]
      · have hmem : k ∈ xs := by
          rcases List.mem_cons.mp hk with h1 | h2
          · exact absurd h1 hx
          · exact h2
        have hbeq : (k == x) = false := by
          simpa using hx
        simp only [List.map_cons, List.lookup, hbeq]
        exact ih hmem

/-- C6: for a well-formed harness graph (entry and all arc endpoints in
`1..N`), `toCFG` materializes every node `k` in `1..N` as a block named
`entry_n_<E>` when `k` is the entry `E` and `n_<k>` otherwise, and the
successors of `k`'s block — the default destination plus the switch
cases, built by `connect` in insertion order — are exactly the targets
of the input arcs whose source is `k`, in the order those arcs were
listed. -/
theorem c6_tocfg_blocks_arcs (g : InputGraph)
    (_hentry1 : 1 ≤ g.entry) (_hentryN : g.entry ≤ g.nodesNum)
    (_harcs : ∀ a ∈ g.arcs, 1 ≤ a.1 ∧ a.1 ≤ g.nodesNum ∧ 1 ≤ a.2 ∧ a.2 ≤ g.nodesNum)
    (k : Nat) (hk1 : 1 ≤ k) (hkN : k ≤ g.nodesNum) :
    (g.toCFG).numToBB.lookup k =
      some (if k = g.entry then "entry_n_" ++ toString g.entry else "n_" ++ toString k) ∧
    (g.toCFG).succs k = (g.arcs.filter (fun a => a.1 = k)).map (fun a => a.2) := by
  constructor
  · by_cases hke : k = g.entry
    · subst hke
      simp [InputGraph.toCFG, List.lookup, mkBlockName]
    · have hmem : k ∈ (((List.range g.nodesNum).map (fun i => i + 1)).filter
          (fun i => i ≠ g.entry)) := by
        rw [List.mem_filter]
        refine ⟨List.mem_map.mpr ⟨k - 1, List.mem_range.mpr (by omega), by omega⟩, ?_⟩
        simpa using hke
      show (((g.entry, mkBlockName "entry_n_" g.entry) ::
          ((((List.range g.nodesNum).map (fun i => i + 1)).filter
            (fun i => i ≠ g.entry)).map (fun i => (i, mkBlockName "n_" i)))).lookup k) = _
      rw [List.lookup]
      have hbeq : (k == g.entry) = false := by
        simpa using hke
      rw [hbeq]
      rw [lookup_map_self (mkBlockName "n_") _ k hmem, if_neg hke]
      rfl
  · show termSuccs ((g.arcs.foldl
        (fun m a => fun x => if x = a.1 then some (connectTerm (m x) a.2) else m x)
        (fun _ => none)) k) = _
    rw [toCFG_term_succs]
    rfl

/-- C6, witness: on the sample graph (3 nodes, entry 2, arcs
`2→1, 2→3, 1→3, 2→1`), node 2 is named `entry_n_2` and its block's
successors are `[1, 3, 1]` in arc-listing order. -/
theorem c6_tocfg_blocks_arcs_witness :
    (gEx.toCFG).numToBB.lookup 2 = some "entry_n_2" ∧
    (gEx.toCFG).succs 2 = [1, 3, 1] := by
  have h := c6_tocfg_blocks_arcs gEx (by decide) (by decide) (by decide) 2
    (by decide) (by decide)
  refine ⟨?_, ?_⟩
  · rw [h.1]
    rfl
  · rw [h.2]
    rfl

/-- C8: the verification mask bit values are Basic = 1, CFG = 2,
Sibling = 4, OldDT (the oracle cross-check) = 8; Normal is the bitwise
or of Basic, CFG and OldDT (= 11), and Full is the bitwise or of all
four bits (= 15). -/
theorem c8_verification_mask :
    VerifBasic = 1 ∧ VerifCFG = 2 ∧ VerifSibling = 4 ∧ VerifOldDT = 8 ∧
    VerifNormal = (VerifBasic ||| VerifCFG ||| VerifOldDT) ∧ VerifNormal = 11 ∧
    VerifFull = (VerifBasic ||| VerifCFG ||| VerifSibling ||| VerifOldDT) ∧
    VerifFull = 15 := by
  refine ⟨rfl, rfl, rfl, rfl, rfl, by decide, rfl, by decide⟩

/-- C9: `InputGraph::readFromFile` never produces an empty optional —
whenever it returns (rather than hitting a fatal abort) the result is a
`some` — and on empty input (including a file that cannot be opened,
which yields no lines) it returns a graph with zero nodes, no arcs and
no deferred updates. -/
theorem c9_readfromfile_total :
    (∀ lines : List String, returnsNone (readFromFile lines) = false) ∧
    (∃ g0 : InputGraph, readFromFile [] = Except.ok (some g0) ∧
        g0.nodesNum = 0 ∧ g0.arcs = [] ∧ g0.updates = []) := by
  constructor
  · intro lines
    have hgen : ∀ (ls : List String) (g : InputGraph),
        returnsNone (readLines g ls) = false := by
      intro ls
      induction ls with
      | nil => intro g; rfl
      | cons l rest ih =>
          intro g
          unfold readLines
          by_cases hl : l.data = []
          · rw [if_pos hl]
            rfl
          · rw [if_neg hl]
            cases hp : processLine g l with
            | error e => rfl
            | ok g2 => exact ih g2
    exact hgen lines {}
  · exact ⟨{}, rfl, rfl, rfl, rfl⟩

end LLVMDom
